import Mathlib

/-!
Shallow embedding of the Eigix repository: compile-time-sized numeric
containers Matrix<T, Rows, Cols> and Tensor3D<T, Depth, Rows, Cols>
with bounds-checked element access, element-wise and algebraic
operators, bulk populate and formatted printing.

Matrices are embedded as functions Fin Rows → Fin Cols → T (the nested
std::array storage), tensors as Fin Depth → Fin Rows → Fin Cols → T.
C++ loops that assign into a container are embedded as folds of
single-cell writes over the exact index sequence of the loop nest;
accesses through the throwing operator() are modelled with Option
(none = exception thrown), and each operator body threads an explicit
state ⟨self, other, result, err⟩ so that absence of mutation and
unreachability of the out-of-range branch are provable facts rather
than artifacts of the embedding.
-/

namespace Eigix

/-- Exceptions thrown by the C++ code: std::out_of_range from the element
accessors, std::runtime_error from scalar division by (near-)zero. -/
inductive ErrKind where
  | oor
  | divZero
  deriving DecidableEq

/-- Execution state of one operator body: the receiver (`*this`), the other
operand (matrix or scalar), the local `result` object, and the pending
exception (none while no throw has happened). -/
structure St2 (α β γ : Type) where
  self : α
  other : β
  result : γ
  err : Option ErrKind

/-- Index sequence of the row-major loop nest
`for r in 0..Rows-1: for c in 0..Cols-1` shared by the Matrix constructor,
operators and populate. -/
def rowMajorIdx (R C : Nat) : List (Nat × Nat) :=
  (List.range R).flatMap fun r => (List.range C).map fun c => (r, c)

/-- Index sequence of the depth-major loop nest
`for d in 0..Depth-1: for r in 0..Rows-1: for c in 0..Cols-1` shared by the
Tensor3D constructor, operators and populate. -/
def lexIdx (D R C : Nat) : List (Nat × Nat × Nat) :=
  (List.range D).flatMap fun d =>
    (List.range R).flatMap fun r => (List.range C).map fun c => (d, r, c)

/-- Matrix<T, Rows, Cols>: the nested std::array storage, one value of T per
(row, col) pair. -/
abbrev Matrix (T : Type) (R C : Nat) : Type := Fin R → Fin C → T

namespace Matrix

variable {T : Type} {R C K : Nat}

/-- Bounds-checked const accessor operator()(row, col): throws
std::out_of_range (modelled as none) when row ≥ Rows or col ≥ Cols, and
returns the stored value otherwise; the check runs on every access. -/
def element (m : Matrix T R C) (row col : Nat) : Option T :=
  if h : R ≤ row ∨ C ≤ col then none
  else some (m ⟨row, by omega⟩ ⟨col, by omega⟩)

/-- Overwrite of the single cell `p` of the storage: the effect of one
assignment `data[r][c] = v`. -/
def writeAt (m : Matrix T R C) (p : Nat × Nat) (v : T) : Matrix T R C :=
  fun i j => if ((i : Nat), (j : Nat)) = p then v else m i j

/-- Bounds-checked mutable accessor followed by assignment,
`m(row, col) = v`: throws (none) when an index is out of range, otherwise
performs the single-cell write. -/
def setElement (m : Matrix T R C) (row col : Nat) (v : T) : Option (Matrix T R C) :=
  if R ≤ row ∨ C ≤ col then none
  else some (m.writeAt (row, col) v)

/-- Total read used to state cell-level facts: the checked accessor with 0 as
the (unreachable) out-of-range default. -/
def readD [Zero T] (m : Matrix T R C) (p : Nat × Nat) : T :=
  (m.element p.1 p.2).getD 0

/-- Dimension getter numRows(). -/
def numRows (_ : Matrix T R C) : Nat := R

/-- Dimension getter numCols(). -/
def numCols (_ : Matrix T R C) : Nat := C

/-- Default constructor: iterates the row-major nest assigning T() to each
cell of the (initially arbitrary) storage. -/
def ctorFrom [Zero T] (m : Matrix T R C) : Matrix T R C :=
  (rowMajorIdx R C).foldl (fun a p => a.writeAt p 0) m

/-- The all-zero matrix; the value every default-constructed Matrix holds. -/
def zeroM (T : Type) (R C : Nat) [Zero T] : Matrix T R C := fun _ _ => 0

/-- One iteration of an element-wise binary operator loop body:
`result(r, c) = f((*this)(r, c), other(r, c))`, every access through the
throwing accessor; nothing runs once an exception is pending. -/
def ewStep (f : T → T → T) (st : St2 (Matrix T R C) (Matrix T R C) (Matrix T R C))
    (p : Nat × Nat) : St2 (Matrix T R C) (Matrix T R C) (Matrix T R C) :=
  match st.err with
  | some _ => st
  | none =>
    match st.self.element p.1 p.2, st.other.element p.1 p.2 with
    | some x, some y =>
      match st.result.setElement p.1 p.2 (f x y) with
      | some res => { st with result := res }
      | none => { st with err := some ErrKind.oor }
    | _, _ => { st with err := some ErrKind.oor }

/-- operator+: element-wise addition of same-shape matrices into a
default-constructed result, row-major loop nest. -/
def addSt [Zero T] [Add T] (a b : Matrix T R C) :
    St2 (Matrix T R C) (Matrix T R C) (Matrix T R C) :=
  (rowMajorIdx R C).foldl (ewStep (· + ·)) ⟨a, b, zeroM T R C, none⟩

/-- operator-: element-wise subtraction, same loop structure as operator+. -/
def subSt [Zero T] [Sub T] (a b : Matrix T R C) :
    St2 (Matrix T R C) (Matrix T R C) (Matrix T R C) :=
  (rowMajorIdx R C).foldl (ewStep (· - ·)) ⟨a, b, zeroM T R C, none⟩

/-- Inner k-loop of operator*: `T sum = T{}` then
`sum += (*this)(i, k) * other(k, j)` for k ascending 0..Cols-1, every access
through the throwing accessor. -/
def dotChecked [Zero T] [Add T] [Mul T] (a : Matrix T R K) (b : Matrix T K C)
    (i j : Nat) : Option T :=
  (List.range K).foldl
    (fun acc k => acc.bind fun s => (a.element i k).bind fun x =>
      (b.element k j).bind fun y => some (s + x * y))
    (some 0)

/-- One iteration of the outer two loops of operator*:
`result(i, j) = sum` for the inner-loop sum. -/
def mulStep [Zero T] [Add T] [Mul T]
    (st : St2 (Matrix T R K) (Matrix T K C) (Matrix T R C)) (p : Nat × Nat) :
    St2 (Matrix T R K) (Matrix T K C) (Matrix T R C) :=
  match st.err with
  | some _ => st
  | none =>
    match dotChecked st.self st.other p.1 p.2 with
    | some s =>
      match st.result.setElement p.1 p.2 s with
      | some res => { st with result := res }
      | none => { st with err := some ErrKind.oor }
    | none => { st with err := some ErrKind.oor }

/-- operator*: the Cols == OtherRows static_assert holds by the shape types;
triple-nested dot-product loop, i over Rows, j over OtherCols. -/
def mulSt [Zero T] [Add T] [Mul T] (a : Matrix T R K) (b : Matrix T K C) :
    St2 (Matrix T R K) (Matrix T K C) (Matrix T R C) :=
  (rowMajorIdx R C).foldl mulStep ⟨a, b, zeroM T R C, none⟩

/-- One iteration of a scalar-map loop, `result(r, c) = f((*this)(r, c))`:
the shape of the operator/ body after its divisor check passed. -/
def scStep {S : Type} (f : T → T) (st : St2 (Matrix T R C) S (Matrix T R C))
    (p : Nat × Nat) : St2 (Matrix T R C) S (Matrix T R C) :=
  match st.err with
  | some _ => st
  | none =>
    match st.self.element p.1 p.2 with
    | some x =>
      match st.result.setElement p.1 p.2 (f x) with
      | some res => { st with result := res }
      | none => { st with err := some ErrKind.oor }
    | none => { st with err := some ErrKind.oor }

/-- operator/ for an integer element type T: the divisor is compared with T()
once, before any element is divided (a throw leaves the result object never
even constructed; the zero matrix stands for it); element division is C++
truncating division, Int.tdiv. -/
def divIntSt (a : Matrix Int R C) (s : Int) : St2 (Matrix Int R C) Int (Matrix Int R C) :=
  if s = 0 then ⟨a, s, zeroM Int R C, some ErrKind.divZero⟩
  else (rowMajorIdx R C).foldl (scStep (fun x => x.tdiv s)) ⟨a, s, zeroM Int R C, none⟩

/-- operator/ for a floating-point element type, ℚ standing for the float
values and eps for std::numeric_limits<T>::epsilon(): throws when
std::fabs(scalar) < eps, checked once before the division loop. -/
def divFloatSt (eps : ℚ) (a : Matrix ℚ R C) (s : ℚ) :
    St2 (Matrix ℚ R C) ℚ (Matrix ℚ R C) :=
  if |s| < eps then ⟨a, s, zeroM ℚ R C, some ErrKind.divZero⟩
  else (rowMajorIdx R C).foldl (scStep (fun x => x / s)) ⟨a, s, zeroM ℚ R C, none⟩

/-- populate(values...): the arity check sizeof...(args) == Rows*Cols (a
compile-time ArgumentCountMismatch, modelled as none), then the row-major
assignment loop `data[r][c] = values[k++]`. -/
def populate (m : Matrix T R C) (vals : List T) : Option (Matrix T R C) :=
  if vals.length = R * C then
    some (((rowMajorIdx R C).zip vals).foldl (fun a q => a.writeAt q.1 q.2) m)
  else none

/-- populate with arguments of any type convertible to T: each argument is
converted by static_cast (the cast function) into the values array before
the assignment loop runs. -/
def populateCast {A : Type} (m : Matrix T R C) (cast : A → T) (args : List A) :
    Option (Matrix T R C) :=
  m.populate (args.map cast)

end Matrix

/-- Tensor3D<T, Depth, Rows, Cols>: nested std::array storage, depth holds
2D slices of Rows x Cols. -/
abbrev Tensor3D (T : Type) (D R C : Nat) : Type := Fin D → Fin R → Fin C → T

namespace Tensor3D

variable {T : Type} {D R C : Nat}

/-- Bounds-checked const accessor operator()(depth, row, col): throws
std::out_of_range (none) when any index reaches its bound, checked on every
access. -/
def element (m : Tensor3D T D R C) (depth row col : Nat) : Option T :=
  if h : D ≤ depth ∨ R ≤ row ∨ C ≤ col then none
  else some (m ⟨depth, by omega⟩ ⟨row, by omega⟩ ⟨col, by omega⟩)

/-- Overwrite of the single cell `p`: one assignment `data[d][r][c] = v`. -/
def writeAt (m : Tensor3D T D R C) (p : Nat × Nat × Nat) (v : T) : Tensor3D T D R C :=
  fun i j k => if ((i : Nat), (j : Nat), (k : Nat)) = p then v else m i j k

/-- Bounds-checked mutable accessor followed by assignment. -/
def setElement (m : Tensor3D T D R C) (depth row col : Nat) (v : T) :
    Option (Tensor3D T D R C) :=
  if D ≤ depth ∨ R ≤ row ∨ C ≤ col then none
  else some (m.writeAt (depth, row, col) v)

/-- Total read used to state cell-level facts: the checked accessor with 0 as
the (unreachable) out-of-range default. -/
def readD [Zero T] (m : Tensor3D T D R C) (p : Nat × Nat × Nat) : T :=
  (m.element p.1 p.2.1 p.2.2).getD 0

/-- Dimension getter numDepth(). -/
def numDepth (_ : Tensor3D T D R C) : Nat := D

/-- Dimension getter numRows(). -/
def numRows (_ : Tensor3D T D R C) : Nat := R

/-- Dimension getter numCols(). -/
def numCols (_ : Tensor3D T D R C) : Nat := C

/-- Default constructor: the depth-major nest assigns T() to every cell. -/
def ctorFrom [Zero T] (m : Tensor3D T D R C) : Tensor3D T D R C :=
  (lexIdx D R C).foldl (fun a p => a.writeAt p 0) m

/-- The all-zero tensor; the value every default-constructed Tensor3D holds. -/
def zeroT (T : Type) (D R C : Nat) [Zero T] : Tensor3D T D R C := fun _ _ _ => 0

/-- One iteration of an element-wise binary operator loop body,
`result(d, r, c) = f((*this)(d, r, c), other(d, r, c))`, every access through
the throwing accessor; nothing runs once an exception is pending. -/
def ewStep (f : T → T → T) (st : St2 (Tensor3D T D R C) (Tensor3D T D R C) (Tensor3D T D R C))
    (p : Nat × Nat × Nat) : St2 (Tensor3D T D R C) (Tensor3D T D R C) (Tensor3D T D R C) :=
  match st.err with
  | some _ => st
  | none =>
    match st.self.element p.1 p.2.1 p.2.2, st.other.element p.1 p.2.1 p.2.2 with
    | some x, some y =>
      match st.result.setElement p.1 p.2.1 p.2.2 (f x y) with
      | some res => { st with result := res }
      | none => { st with err := some ErrKind.oor }
    | _, _ => { st with err := some ErrKind.oor }

/-- operator+: element-wise addition of same-shape tensors into a
default-constructed result, depth-major loop nest. -/
def addSt [Zero T] [Add T] (a b : Tensor3D T D R C) :
    St2 (Tensor3D T D R C) (Tensor3D T D R C) (Tensor3D T D R C) :=
  (lexIdx D R C).foldl (ewStep (· + ·)) ⟨a, b, zeroT T D R C, none⟩

/-- operator-: element-wise subtraction, same loop structure as operator+. -/
def subSt [Zero T] [Sub T] (a b : Tensor3D T D R C) :
    St2 (Tensor3D T D R C) (Tensor3D T D R C) (Tensor3D T D R C) :=
  (lexIdx D R C).foldl (ewStep (· - ·)) ⟨a, b, zeroT T D R C, none⟩

/-- One iteration of a scalar-map loop,
`result(d, r, c) = f((*this)(d, r, c))`. -/
def scStep {S : Type} (f : T → T) (st : St2 (Tensor3D T D R C) S (Tensor3D T D R C))
    (p : Nat × Nat × Nat) : St2 (Tensor3D T D R C) S (Tensor3D T D R C) :=
  match st.err with
  | some _ => st
  | none =>
    match st.self.element p.1 p.2.1 p.2.2 with
    | some x =>
      match st.result.setElement p.1 p.2.1 p.2.2 (f x) with
      | some res => { st with result := res }
      | none => { st with err := some ErrKind.oor }
    | none => { st with err := some ErrKind.oor }

/-- Member operator*(scalar): element-wise scalar multiplication,
`result(d, r, c) = (*this)(d, r, c) * scalar`. -/
def mulScalarSt [Zero T] [Mul T] (a : Tensor3D T D R C) (s : T) :
    St2 (Tensor3D T D R C) T (Tensor3D T D R C) :=
  (lexIdx D R C).foldl (scStep (fun x => x * s)) ⟨a, s, zeroT T D R C, none⟩

/-- Free operator*(scalar, tensor): `return tensor * scalar;`, reusing the
member operator and returning its value. -/
def smulLeft [Zero T] [Mul T] (s : T) (t : Tensor3D T D R C) : Tensor3D T D R C :=
  (t.mulScalarSt s).result

/-- operator/ for an integer element type T: divisor compared with T() once,
before any element is divided; element division is C++ truncating division. -/
def divIntSt (a : Tensor3D Int D R C) (s : Int) :
    St2 (Tensor3D Int D R C) Int (Tensor3D Int D R C) :=
  if s = 0 then ⟨a, s, zeroT Int D R C, some ErrKind.divZero⟩
  else (lexIdx D R C).foldl (scStep (fun x => x.tdiv s)) ⟨a, s, zeroT Int D R C, none⟩

/-- operator/ for a floating-point element type, ℚ standing for the float
values and eps for std::numeric_limits<T>::epsilon(): throws when
std::fabs(scalar) < eps, checked once before the division loop. -/
def divFloatSt (eps : ℚ) (a : Tensor3D ℚ D R C) (s : ℚ) :
    St2 (Tensor3D ℚ D R C) ℚ (Tensor3D ℚ D R C) :=
  if |s| < eps then ⟨a, s, zeroT ℚ D R C, some ErrKind.divZero⟩
  else (lexIdx D R C).foldl (scStep (fun x => x / s)) ⟨a, s, zeroT ℚ D R C, none⟩

/-- populate(values...): arity check sizeof...(args) == Depth*Rows*Cols
(none on mismatch), then the depth-major assignment loop
`data[d][r][c] = values[k++]`. -/
def populate (m : Tensor3D T D R C) (vals : List T) : Option (Tensor3D T D R C) :=
  if vals.length = D * (R * C) then
    some (((lexIdx D R C).zip vals).foldl (fun a q => a.writeAt q.1 q.2) m)
  else none

/-- populate with arguments of any type convertible to T: each argument is
converted by static_cast (the cast function) first. -/
def populateCast {A : Type} (m : Tensor3D T D R C) (cast : A → T) (args : List A) :
    Option (Tensor3D T D R C) :=
  m.populate (args.map cast)

end Tensor3D

/-- Format flags of a std::ostream, the part returned by os.flags():
skipws, the numeric base field and the float field (0 = default,
1 = std::fixed, 2 = std::scientific). -/
structure FmtFlags where
  skipws : Bool
  basefield : Nat
  floatfield : Nat
  deriving DecidableEq

/-- Shared formatting state of a std::ostream: flags, float precision and
field width. -/
structure FmtState where
  flags : FmtFlags
  precision : Nat
  width : Nat
  deriving DecidableEq

/-- Formatting state of a default-constructed stream (std::ios(nullptr)):
skipws | dec flags, precision 6, width 0. -/
def defaultFmtState : FmtState := ⟨⟨true, 10, 0⟩, 6, 0⟩

/-- Effect of a formatted insertion `os << x` on the formatting state: the
field width resets to 0; flags and precision persist. -/
def outputStep (s : FmtState) : FmtState := { s with width := 0 }

/-- Effect of `os << std::fixed`: the floatfield is set to fixed. -/
def fixedStep (s : FmtState) : FmtState :=
  { s with flags := { s.flags with floatfield := 1 } }

/-- Effect of `os << std::setprecision(n)`. -/
def setPrecisionStep (n : Nat) (s : FmtState) : FmtState := { s with precision := n }

/-- Effect of `os << std::setw(n)`. -/
def setwStep (n : Nat) (s : FmtState) : FmtState := { s with width := n }

/-- Effect of `os.copyfmt(std::ios(nullptr))`: the whole formatting state is
replaced by that of a default-constructed stream. -/
def copyfmtDefault (_ : FmtState) : FmtState := defaultFmtState

/-- Net effect of the Matrix operator<< on the stream formatting state: the
header insertion, `os << std::fixed << std::setprecision(2)`, the setw(8)
body insertions, and finally `os.copyfmt(std::ios(nullptr))`. -/
def matrixFmtEffect (s : FmtState) : FmtState :=
  copyfmtDefault (outputStep (setwStep 8 (setPrecisionStep 2 (fixedStep (outputStep s)))))

/-- Net effect of the Tensor3D operator<< on the stream formatting state: the
header insertion, `original_flags = os.flags()`,
`os << std::fixed << std::setprecision(2)`, the setw(8) body insertions, and
finally `os.flags(original_flags)` (flags only; precision is not part of
flags()). -/
def tensorFmtEffect (s : FmtState) : FmtState :=
  let s1 := outputStep s
  let saved := s1.flags
  let s2 := setPrecisionStep 2 (fixedStep s1)
  let s3 := outputStep (setwStep 8 s2)
  { s3 with flags := saved }

/-- static_cast<int-type>(f) for a floating-point value f (modelled by ℚ):
C++ converts by discarding the fractional part, i.e. the numerator divided by
the (positive) denominator in truncating division. -/
def staticCastRatInt (q : ℚ) : Int := q.num.tdiv q.den

/-- Truncation toward zero in the words of the spec: floor for nonnegative
values, ceiling for negative ones. -/
def truncTowardZero (q : ℚ) : Int := if 0 ≤ q then ⌊q⌋ else ⌈q⌉

/-- A loop that, on exception-free states, only rewrites the `result` field
leaves `self` and `other` untouched and never raises: folding it from an
exception-free state is a fold of the result updates. -/
theorem St2.foldl_char {α β γ ι : Type} (step : St2 α β γ → ι → St2 α β γ)
    (w : γ → ι → γ) (a : α) (b : β) (ps : List ι)
    (hstep : ∀ r p, p ∈ ps → step ⟨a, b, r, none⟩ p = ⟨a, b, w r p, none⟩) :
    ∀ r, ps.foldl step ⟨a, b, r, none⟩ = ⟨a, b, ps.foldl w r, none⟩ := by
  induction ps with
  | nil => intro r; rfl
  | cons q ps ih =>
    intro r
    rw [List.foldl_cons, hstep r q (List.mem_cons_self _ _), List.foldl_cons]
    exact ih (fun r p hp => hstep r p (List.mem_cons_of_mem _ hp)) (w r q)

section WriteRead

variable {ι γ T : Type} [DecidableEq ι]
variable (wr : γ → ι → T → γ) (rdP : γ → ι → T) (valid : ι → Prop)

/-- Reading a valid cell after a sequence of writes whose written value is a
function of the cell alone: the cell holds that value if it was written at
all, and its old content otherwise. -/
theorem foldl_write_fun
    (law : ∀ m p v k, valid k → rdP (wr m p v) k = if k = p then v else rdP m k)
    (g : ι → T) (ps : List ι) (r : γ) (k : ι) (hk : valid k) :
    rdP (ps.foldl (fun m p => wr m p (g p)) r) k = if k ∈ ps then g k else rdP r k := by
  induction ps generalizing r with
  | nil => simp
  | cons q ps ih =>
    rw [List.foldl_cons, ih (wr r q (g q))]
    by_cases hmem : k ∈ ps
    · simp [hmem]
    · rw [if_neg hmem, law _ _ _ _ hk]
      by_cases hq : k = q
      · subst hq; simp
      · simp [hq, hmem]

/-- A sequence of keyed writes touching only keys different from `k` leaves
the cell at `k` unchanged. -/
theorem foldl_write_of_ne
    (law : ∀ m p v k, valid k → rdP (wr m p v) k = if k = p then v else rdP m k)
    (ps : List (ι × T)) (r : γ) (k : ι) (hk : valid k)
    (h : ∀ q ∈ ps, q.1 ≠ k) :
    rdP (ps.foldl (fun m q => wr m q.1 q.2) r) k = rdP r k := by
  induction ps generalizing r with
  | nil => rfl
  | cons q ps ih =>
    rw [List.foldl_cons, ih (wr r q.1 q.2) (fun q hq => h q (List.mem_cons_of_mem _ hq))]
    rw [law _ _ _ _ hk, if_neg]
    intro hkq
    exact h q (List.mem_cons_self _ _) hkq.symm

/-- If every write keyed `k` in the sequence writes the same value `v` and at
least one such write occurs, the cell at `k` ends up holding `v`. -/
theorem foldl_write_unique
    (law : ∀ m p v k, valid k → rdP (wr m p v) k = if k = p then v else rdP m k)
    (ps : List (ι × T)) (r : γ) (k : ι) (v : T) (hk : valid k)
    (hmem : (k, v) ∈ ps) (huniq : ∀ w, (k, w) ∈ ps → w = v) :
    rdP (ps.foldl (fun m q => wr m q.1 q.2) r) k = v := by
  induction ps generalizing r with
  | nil => cases hmem
  | cons q ps ih =>
    rw [List.foldl_cons]
    by_cases htail : (k, v) ∈ ps
    · exact ih (wr r q.1 q.2) htail (fun w hw => huniq w (List.mem_cons_of_mem _ hw))
    · have hnone : ∀ q' ∈ ps, q'.1 ≠ k := by
        intro q' hq' hq'k
        apply htail
        have hmm : (k, q'.2) ∈ ps := by rwa [← hq'k, Prod.mk.eta]
        rwa [huniq q'.2 (List.mem_cons_of_mem _ hmm)] at hmm
      have hq : q = (k, v) := by
        rcases List.mem_cons.mp hmem with h | h
        · exact h.symm
        · exact absurd h htail
      subst hq
      rw [foldl_write_of_ne wr rdP valid law ps _ k hk hnone, law _ _ _ _ hk, if_pos rfl]

end WriteRead

/-- The row-major loop nest enumerates exactly the cells `(k / C, k % C)` for
the flat iteration counter `k` ascending over `R * C` steps. -/
theorem rowMajorIdx_eq (R C : Nat) :
    rowMajorIdx R C = (List.range (R * C)).map fun k => (k / C, k % C) := by
  induction R with
  | zero => simp [rowMajorIdx]
  | succ R ih =>
    rw [rowMajorIdx, List.range_succ, List.flatMap_append, ← rowMajorIdx, ih]
    have h1 : (R + 1) * C = R * C + C := by ring
    rw [h1, List.range_add, List.map_append, List.map_map]
    congr 1
    simp only [List.flatMap_cons, List.flatMap_nil, List.append_nil]
    apply (List.map_congr_left _).symm
    intro c hc
    have hcC : c < C := List.mem_range.mp hc
    have hC : 0 < C := Nat.lt_of_le_of_lt (Nat.zero_le c) hcC
    have hd : (R * C + c) / C = R := by
      rw [Nat.add_comm, Nat.mul_comm, Nat.add_mul_div_left _ _ hC,
        Nat.div_eq_of_lt hcC, Nat.zero_add]
    have hm : (R * C + c) % C = c := by
      rw [Nat.mul_comm, Nat.mul_add_mod, Nat.mod_eq_of_lt hcC]
    simp [Function.comp, hd, hm]

/-- Membership in the row-major index sequence is exactly in-boundedness. -/
theorem mem_rowMajorIdx {R C : Nat} {p : Nat × Nat} :
    p ∈ rowMajorIdx R C ↔ p.1 < R ∧ p.2 < C := by
  obtain ⟨x, y⟩ := p
  simp only [rowMajorIdx, List.mem_flatMap, List.mem_map, List.mem_range, Prod.mk.injEq]
  constructor
  · rintro ⟨a, ha, b, hb, h1, h2⟩
    subst h1; subst h2; exact ⟨ha, hb⟩
  · rintro ⟨hx, hy⟩
    exact ⟨x, hx, y, hy, rfl, rfl⟩

theorem rowMajorIdx_length (R C : Nat) : (rowMajorIdx R C).length = R * C := by
  rw [rowMajorIdx_eq, List.length_map, List.length_range]

theorem rowMajorIdx_getElem (R C : Nat) (k : Nat) (h : k < (rowMajorIdx R C).length) :
    (rowMajorIdx R C)[k] = (k / C, k % C) := by
  simp [rowMajorIdx_eq, List.getElem_map, List.getElem_range]

/-- The depth-major loop nest enumerates exactly the cells
`(k / (R*C), k % (R*C) / C, k % (R*C) % C)` for the flat iteration counter
`k` ascending over `D * (R * C)` steps. -/
theorem lexIdx_eq (D R C : Nat) :
    lexIdx D R C = (List.range (D * (R * C))).map
      fun k => (k / (R * C), k % (R * C) / C, k % (R * C) % C) := by
  induction D with
  | zero => simp [lexIdx]
  | succ D ih =>
    rw [lexIdx, List.range_succ, List.flatMap_append, ← lexIdx, ih]
    have h1 : (D + 1) * (R * C) = D * (R * C) + R * C := by ring
    rw [h1, List.range_add, List.map_append, List.map_map]
    congr 1
    simp only [List.flatMap_cons, List.flatMap_nil, List.append_nil]
    have hblock : ((List.range R).flatMap fun r => (List.range C).map fun c => (D, r, c))
        = (rowMajorIdx R C).map fun p => (D, p.1, p.2) := by
      rw [rowMajorIdx, List.map_flatMap]
      apply congrArg
      funext r
      rw [List.map_map]
      simp [Function.comp]
    rw [hblock, rowMajorIdx_eq, List.map_map]
    apply (List.map_congr_left _).symm
    intro c hc
    have hcRC : c < R * C := List.mem_range.mp hc
    have hRC : 0 < R * C := Nat.lt_of_le_of_lt (Nat.zero_le _) hcRC
    have hd : (D * (R * C) + c) / (R * C) = D := by
      rw [Nat.add_comm, Nat.mul_comm, Nat.add_mul_div_left _ _ hRC,
        Nat.div_eq_of_lt hcRC, Nat.zero_add]
    have hm : (D * (R * C) + c) % (R * C) = c := by
      rw [Nat.mul_comm, Nat.mul_add_mod, Nat.mod_eq_of_lt hcRC]
    simp [Function.comp, hd, hm]

/-- Membership in the depth-major index sequence is exactly in-boundedness. -/
theorem mem_lexIdx {D R C : Nat} {p : Nat × Nat × Nat} :
    p ∈ lexIdx D R C ↔ p.1 < D ∧ p.2.1 < R ∧ p.2.2 < C := by
  obtain ⟨x, y, z⟩ := p
  simp only [lexIdx, List.mem_flatMap, List.mem_map, List.mem_range, Prod.mk.injEq]
  constructor
  · rintro ⟨a, ha, b, hb, c, hc, h1, h2, h3⟩
    subst h1; subst h2; subst h3; exact ⟨ha, hb, hc⟩
  · rintro ⟨hx, hy, hz⟩
    exact ⟨x, hx, y, hy, z, hz, rfl, rfl, rfl⟩

theorem lexIdx_length (D R C : Nat) : (lexIdx D R C).length = D * (R * C) := by
  rw [lexIdx_eq, List.length_map, List.length_range]

theorem lexIdx_getElem (D R C : Nat) (k : Nat) (h : k < (lexIdx D R C).length) :
    (lexIdx D R C)[k] = (k / (R * C), k % (R * C) / C, k % (R * C) % C) := by
  simp [lexIdx_eq, List.getElem_map, List.getElem_range]

namespace Matrix

variable {T : Type} {R C K : Nat}

theorem element_lt (m : Matrix T R C) {x y : Nat} (h1 : x < R) (h2 : y < C) :
    m.element x y = some (m ⟨x, h1⟩ ⟨y, h2⟩) := by
  rw [element, dif_neg (by omega)]

theorem readD_eq [Zero T] (m : Matrix T R C) {x y : Nat} (h1 : x < R) (h2 : y < C) :
    m.readD (x, y) = m ⟨x, h1⟩ ⟨y, h2⟩ := by
  rw [readD]
  simp only []
  rw [element_lt m h1 h2, Option.getD_some]

theorem element_eq_readD [Zero T] (m : Matrix T R C) {x y : Nat} (h1 : x < R) (h2 : y < C) :
    m.element x y = some (m.readD (x, y)) := by
  rw [element_lt m h1 h2, readD_eq m h1 h2]

theorem readD_fin [Zero T] (m : Matrix T R C) (i : Fin R) (j : Fin C) :
    m.readD (i.val, j.val) = m i j :=
  readD_eq m i.isLt j.isLt

theorem setElement_lt (m : Matrix T R C) {x y : Nat} (v : T) (h1 : x < R) (h2 : y < C) :
    m.setElement x y v = some (m.writeAt (x, y) v) := by
  rw [setElement, if_neg (by omega)]

theorem readD_writeAt [Zero T] (m : Matrix T R C) (p : Nat × Nat) (v : T) (k : Nat × Nat)
    (hk : k.1 < R ∧ k.2 < C) :
    (m.writeAt p v).readD k = if k = p then v else m.readD k := by
  obtain ⟨h1, h2⟩ := hk
  by_cases hkp : k = p
  · subst hkp
    rw [if_pos rfl, readD_eq _ h1 h2, writeAt]
    simp [Prod.mk.eta]
  · rw [if_neg hkp, readD_eq _ h1 h2, readD_eq _ h1 h2, writeAt]
    simp only [Prod.mk.eta]
    rw [if_neg hkp]

/-- Cell content after the row-major nest writes g(r, c) into every cell. -/
theorem foldWrites_apply [Zero T] (g : Nat × Nat → T) (r : Matrix T R C) (i : Fin R) (j : Fin C) :
    ((rowMajorIdx R C).foldl (fun m p => m.writeAt p (g p)) r) i j = g (i.val, j.val) := by
  have h := foldl_write_fun (ι := Nat × Nat) writeAt readD (fun p => p.1 < R ∧ p.2 < C)
    (fun m p v k hk => readD_writeAt m p v k hk) g (rowMajorIdx R C) r (i.val, j.val)
    ⟨i.isLt, j.isLt⟩
  rw [if_pos (mem_rowMajorIdx.mpr ⟨i.isLt, j.isLt⟩)] at h
  exact (readD_fin _ i j).symm.trans h

/-- The default constructor zero-fills every cell, whatever the storage held. -/
theorem ctorFrom_apply [Zero T] (m : Matrix T R C) (i : Fin R) (j : Fin C) :
    m.ctorFrom i j = 0 :=
  foldWrites_apply (fun _ => 0) m i j

theorem ctorFrom_eq_zeroM [Zero T] (m : Matrix T R C) : m.ctorFrom = zeroM T R C := by
  funext i j
  exact ctorFrom_apply m i j

theorem ewStep_char [Zero T] (f : T → T → T) (a b r : Matrix T R C) {x y : Nat}
    (h1 : x < R) (h2 : y < C) :
    ewStep f ⟨a, b, r, none⟩ (x, y)
      = ⟨a, b, r.writeAt (x, y) (f (a.readD (x, y)) (b.readD (x, y))), none⟩ := by
  simp only [ewStep, element_eq_readD a h1 h2, element_eq_readD b h1 h2,
    setElement_lt r _ h1 h2]

theorem addSt_eq [Zero T] [Add T] (a b : Matrix T R C) :
    addSt a b = ⟨a, b, fun i j => a i j + b i j, none⟩ := by
  have hstep : ∀ (r : Matrix T R C) p, p ∈ rowMajorIdx R C →
      ewStep (· + ·) ⟨a, b, r, none⟩ p
        = ⟨a, b, r.writeAt p (a.readD p + b.readD p), none⟩ := by
    intro r p hp
    have h := mem_rowMajorIdx.mp hp
    exact ewStep_char _ a b r h.1 h.2
  unfold addSt
  rw [St2.foldl_char _ _ a b _ hstep (zeroM T R C)]
  have hres : ∀ (i : Fin R) (j : Fin C),
      ((rowMajorIdx R C).foldl (fun r p => r.writeAt p (a.readD p + b.readD p))
        (zeroM T R C)) i j = a i j + b i j := by
    intro i j
    have h := foldWrites_apply (fun p => a.readD p + b.readD p) (zeroM T R C) i j
    rwa [readD_fin, readD_fin] at h
  congr 1
  funext i j
  exact hres i j

theorem subSt_eq [Zero T] [Sub T] (a b : Matrix T R C) :
    subSt a b = ⟨a, b, fun i j => a i j - b i j, none⟩ := by
  have hstep : ∀ (r : Matrix T R C) p, p ∈ rowMajorIdx R C →
      ewStep (· - ·) ⟨a, b, r, none⟩ p
        = ⟨a, b, r.writeAt p (a.readD p - b.readD p), none⟩ := by
    intro r p hp
    have h := mem_rowMajorIdx.mp hp
    exact ewStep_char _ a b r h.1 h.2
  unfold subSt
  rw [St2.foldl_char _ _ a b _ hstep (zeroM T R C)]
  have hres : ∀ (i : Fin R) (j : Fin C),
      ((rowMajorIdx R C).foldl (fun r p => r.writeAt p (a.readD p - b.readD p))
        (zeroM T R C)) i j = a i j - b i j := by
    intro i j
    have h := foldWrites_apply (fun p => a.readD p - b.readD p) (zeroM T R C) i j
    rwa [readD_fin, readD_fin] at h
  congr 1
  funext i j
  exact hres i j

theorem dotChecked_eq [Zero T] [Add T] [Mul T] (a : Matrix T R K) (b : Matrix T K C)
    {i j : Nat} (h1 : i < R) (h2 : j < C) :
    dotChecked a b i j
      = some ((List.range K).foldl (fun s k => s + a.readD (i, k) * b.readD (k, j)) 0) := by
  rw [dotChecked]
  have main : ∀ (l : List Nat), (∀ k ∈ l, k < K) → ∀ s : T,
      l.foldl (fun acc k => acc.bind fun s => (a.element i k).bind fun x =>
        (b.element k j).bind fun y => some (s + x * y)) (some s)
      = some (l.foldl (fun s k => s + a.readD (i, k) * b.readD (k, j)) s) := by
    intro l
    induction l with
    | nil => intro _ s; rfl
    | cons q l ih =>
      intro hl s
      have hq : q < K := hl q (List.mem_cons_self _ _)
      rw [List.foldl_cons, List.foldl_cons]
      simp only [Option.some_bind, element_eq_readD a h1 hq, element_eq_readD b hq h2]
      exact ih (fun k hk => hl k (List.mem_cons_of_mem _ hk)) (s + a.readD (i, q) * b.readD (q, j))
  exact main (List.range K) (fun k hk => List.mem_range.mp hk) 0

theorem mulStep_char [Zero T] [Add T] [Mul T] (a : Matrix T R K) (b : Matrix T K C)
    (r : Matrix T R C) {x y : Nat} (h1 : x < R) (h2 : y < C) :
    mulStep ⟨a, b, r, none⟩ (x, y)
      = ⟨a, b, r.writeAt (x, y)
          ((List.range K).foldl (fun s k => s + a.readD (x, k) * b.readD (k, y)) 0), none⟩ := by
  simp only [mulStep, dotChecked_eq a b h1 h2, setElement_lt r _ h1 h2]

theorem mulSt_eq [Zero T] [Add T] [Mul T] (a : Matrix T R K) (b : Matrix T K C) :
    mulSt a b = ⟨a, b,
      fun i j => (List.range K).foldl
        (fun s k => s + a.readD (i.val, k) * b.readD (k, j.val)) 0, none⟩ := by
  have hstep : ∀ (r : Matrix T R C) p, p ∈ rowMajorIdx R C →
      mulStep ⟨a, b, r, none⟩ p = ⟨a, b, r.writeAt p
        ((List.range K).foldl (fun s k => s + a.readD (p.1, k) * b.readD (k, p.2)) 0),
        none⟩ := by
    intro r p hp
    have h := mem_rowMajorIdx.mp hp
    exact mulStep_char a b r h.1 h.2
  unfold mulSt
  rw [St2.foldl_char _ _ a b _ hstep (zeroM T R C)]
  congr 1
  funext i j
  exact foldWrites_apply
    (fun p => (List.range K).foldl (fun s k => s + a.readD (p.1, k) * b.readD (k, p.2)) 0)
    (zeroM T R C) i j

theorem scStep_char [Zero T] {S : Type} (f : T → T) (a : Matrix T R C) (s : S)
    (r : Matrix T R C) {x y : Nat} (h1 : x < R) (h2 : y < C) :
    scStep f ⟨a, s, r, none⟩ (x, y) = ⟨a, s, r.writeAt (x, y) (f (a.readD (x, y))), none⟩ := by
  simp only [scStep, element_eq_readD a h1 h2, setElement_lt r _ h1 h2]

theorem scFold_eq [Zero T] {S : Type} (f : T → T) (a : Matrix T R C) (s : S) :
    (rowMajorIdx R C).foldl (scStep f) ⟨a, s, zeroM T R C, none⟩
      = ⟨a, s, fun i j => f (a i j), none⟩ := by
  have hstep : ∀ (r : Matrix T R C) p, p ∈ rowMajorIdx R C →
      scStep f ⟨a, s, r, none⟩ p = ⟨a, s, r.writeAt p (f (a.readD p)), none⟩ := by
    intro r p hp
    have h := mem_rowMajorIdx.mp hp
    exact scStep_char f a s r h.1 h.2
  rw [St2.foldl_char _ _ a s _ hstep (zeroM T R C)]
  congr 1
  funext i j
  have h := foldWrites_apply (fun p => f (a.readD p)) (zeroM T R C) i j
  rwa [readD_fin] at h

theorem divIntSt_ne (a : Matrix Int R C) (s : Int) (hs : s ≠ 0) :
    divIntSt a s = ⟨a, s, fun i j => (a i j).tdiv s, none⟩ := by
  rw [divIntSt, if_neg hs]
  exact scFold_eq _ a s

theorem divIntSt_zero (a : Matrix Int R C) :
    divIntSt a 0 = ⟨a, 0, zeroM Int R C, some ErrKind.divZero⟩ := by
  rw [divIntSt, if_pos rfl]

theorem divFloatSt_ge (eps : ℚ) (a : Matrix ℚ R C) (s : ℚ) (hs : ¬|s| < eps) :
    divFloatSt eps a s = ⟨a, s, fun i j => a i j / s, none⟩ := by
  rw [divFloatSt, if_neg hs]
  exact scFold_eq _ a s

theorem divFloatSt_lt (eps : ℚ) (a : Matrix ℚ R C) (s : ℚ) (hs : |s| < eps) :
    divFloatSt eps a s = ⟨a, s, zeroM ℚ R C, some ErrKind.divZero⟩ := by
  rw [divFloatSt, if_pos hs]

/-- The k-th value handed to populate lands in the k-th cell of the row-major
enumeration: cell (i, j) receives argument number i * Cols + j. -/
theorem populate_eq [Zero T] (m : Matrix T R C) (vals : List T) (h : vals.length = R * C) :
    m.populate vals = some (fun i j => vals.getD (i.val * C + j.val) 0) := by
  rw [populate, if_pos h]
  congr 1
  funext i j
  have hC : 0 < C := Nat.lt_of_le_of_lt (Nat.zero_le _) j.isLt
  have hk0 : i.val * C + j.val < R * C := by
    calc i.val * C + j.val < i.val * C + C := by omega
    _ = (i.val + 1) * C := by ring
    _ ≤ R * C := Nat.mul_le_mul_right _ i.isLt
  have hlen : ((rowMajorIdx R C).zip vals).length = R * C := by
    rw [List.length_zip, rowMajorIdx_length, h, Nat.min_self]
  have hdiv : (i.val * C + j.val) / C = i.val := by
    rw [Nat.add_comm, Nat.mul_comm, Nat.add_mul_div_left _ _ hC,
      Nat.div_eq_of_lt j.isLt, Nat.zero_add]
  have hmod : (i.val * C + j.val) % C = j.val := by
    rw [Nat.mul_comm, Nat.mul_add_mod, Nat.mod_eq_of_lt j.isLt]
  have hk0len : i.val * C + j.val < ((rowMajorIdx R C).zip vals).length := by
    rw [hlen]; exact hk0
  have hvlen : i.val * C + j.val < vals.length := by rw [h]; exact hk0
  have hrlen : i.val * C + j.val < (rowMajorIdx R C).length := by
    rw [rowMajorIdx_length]; exact hk0
  have hmem : ((i.val, j.val), vals.getD (i.val * C + j.val) 0)
      ∈ (rowMajorIdx R C).zip vals := by
    rw [List.mem_iff_getElem]
    refine ⟨i.val * C + j.val, hk0len, ?_⟩
    rw [List.getElem_zip, rowMajorIdx_getElem R C _ hrlen, hdiv, hmod,
      List.getD_eq_getElem vals 0 hvlen]
  have huniq : ∀ w, ((i.val, j.val), w) ∈ (rowMajorIdx R C).zip vals →
      w = vals.getD (i.val * C + j.val) 0 := by
    intro w hw
    obtain ⟨t, ht, helem⟩ := List.mem_iff_getElem.mp hw
    rw [List.getElem_zip] at helem
    have ht2 : t < (rowMajorIdx R C).length := by
      rw [rowMajorIdx_length]
      rw [hlen] at ht
      exact ht
    rw [rowMajorIdx_getElem R C t ht2] at helem
    simp only [Prod.mk.injEq] at helem
    obtain ⟨⟨hd, hm⟩, hv⟩ := helem
    have ht0 : t = i.val * C + j.val := by
      calc t = C * (t / C) + t % C := (Nat.div_add_mod t C).symm
      _ = i.val * C + j.val := by rw [hd, hm, Nat.mul_comm]
    subst ht0
    rw [List.getD_eq_getElem vals 0 hvlen]
    exact hv.symm
  have hres := foldl_write_unique (ι := Nat × Nat) writeAt readD
    (fun p => p.1 < R ∧ p.2 < C) (fun m p v k hk => readD_writeAt m p v k hk)
    ((rowMajorIdx R C).zip vals) m (i.val, j.val)
    (vals.getD (i.val * C + j.val) 0) ⟨i.isLt, j.isLt⟩ hmem huniq
  exact (readD_fin _ i j).symm.trans hres

end Matrix

namespace Tensor3D

variable {T : Type} {D R C : Nat}

theorem element_lt3 (m : Tensor3D T D R C) {x y z : Nat}
    (h1 : x < D) (h2 : y < R) (h3 : z < C) :
    m.element x y z = some (m ⟨x, h1⟩ ⟨y, h2⟩ ⟨z, h3⟩) := by
  rw [element, dif_neg (by omega)]

theorem readD_eq3 [Zero T] (m : Tensor3D T D R C) {x y z : Nat}
    (h1 : x < D) (h2 : y < R) (h3 : z < C) :
    m.readD (x, y, z) = m ⟨x, h1⟩ ⟨y, h2⟩ ⟨z, h3⟩ := by
  rw [readD]
  simp only []
  rw [element_lt3 m h1 h2 h3, Option.getD_some]

theorem element_eq_readD3 [Zero T] (m : Tensor3D T D R C) {x y z : Nat}
    (h1 : x < D) (h2 : y < R) (h3 : z < C) :
    m.element x y z = some (m.readD (x, y, z)) := by
  rw [element_lt3 m h1 h2 h3, readD_eq3 m h1 h2 h3]

theorem readD_fin3 [Zero T] (m : Tensor3D T D R C) (i : Fin D) (j : Fin R) (k : Fin C) :
    m.readD (i.val, j.val, k.val) = m i j k :=
  readD_eq3 m i.isLt j.isLt k.isLt

theorem setElement_lt3 (m : Tensor3D T D R C) {x y z : Nat} (v : T)
    (h1 : x < D) (h2 : y < R) (h3 : z < C) :
    m.setElement x y z v = some (m.writeAt (x, y, z) v) := by
  rw [setElement, if_neg (by omega)]

theorem readD_writeAt3 [Zero T] (m : Tensor3D T D R C) (p : Nat × Nat × Nat) (v : T)
    (k : Nat × Nat × Nat) (hk : k.1 < D ∧ k.2.1 < R ∧ k.2.2 < C) :
    (m.writeAt p v).readD k = if k = p then v else m.readD k := by
  obtain ⟨h1, h2, h3⟩ := hk
  by_cases hkp : k = p
  · subst hkp
    rw [if_pos rfl, readD_eq3 _ h1 h2 h3, writeAt]
    simp [Prod.mk.eta]
  · rw [if_neg hkp, readD_eq3 _ h1 h2 h3, readD_eq3 _ h1 h2 h3, writeAt]
    simp only [Prod.mk.eta]
    rw [if_neg hkp]

/-- Cell content after the depth-major nest writes g(d, r, c) everywhere. -/
theorem foldWrites_apply3 [Zero T] (g : Nat × Nat × Nat → T) (r : Tensor3D T D R C)
    (i : Fin D) (j : Fin R) (k : Fin C) :
    ((lexIdx D R C).foldl (fun m p => m.writeAt p (g p)) r) i j k
      = g (i.val, j.val, k.val) := by
  have h := foldl_write_fun (ι := Nat × Nat × Nat) writeAt readD
    (fun p => p.1 < D ∧ p.2.1 < R ∧ p.2.2 < C)
    (fun m p v q hq => readD_writeAt3 m p v q hq) g (lexIdx D R C) r
    (i.val, j.val, k.val) ⟨i.isLt, j.isLt, k.isLt⟩
  rw [if_pos (mem_lexIdx.mpr ⟨i.isLt, j.isLt, k.isLt⟩)] at h
  exact (readD_fin3 _ i j k).symm.trans h

/-- The default constructor zero-fills every cell, whatever the storage held. -/
theorem ctorFrom_apply3 [Zero T] (m : Tensor3D T D R C) (i : Fin D) (j : Fin R) (k : Fin C) :
    m.ctorFrom i j k = 0 :=
  foldWrites_apply3 (fun _ => 0) m i j k

theorem ctorFrom_eq_zeroT [Zero T] (m : Tensor3D T D R C) : m.ctorFrom = zeroT T D R C := by
  funext i j k
  exact ctorFrom_apply3 m i j k

theorem ewStep_char3 [Zero T] (f : T → T → T) (a b r : Tensor3D T D R C) {x y z : Nat}
    (h1 : x < D) (h2 : y < R) (h3 : z < C) :
    ewStep f ⟨a, b, r, none⟩ (x, y, z)
      = ⟨a, b, r.writeAt (x, y, z) (f (a.readD (x, y, z)) (b.readD (x, y, z))), none⟩ := by
  simp only [ewStep, element_eq_readD3 a h1 h2 h3, element_eq_readD3 b h1 h2 h3,
    setElement_lt3 r _ h1 h2 h3]

theorem addSt_eq3 [Zero T] [Add T] (a b : Tensor3D T D R C) :
    addSt a b = ⟨a, b, fun i j k => a i j k + b i j k, none⟩ := by
  have hstep : ∀ (r : Tensor3D T D R C) p, p ∈ lexIdx D R C →
      ewStep (· + ·) ⟨a, b, r, none⟩ p
        = ⟨a, b, r.writeAt p (a.readD p + b.readD p), none⟩ := by
    intro r p hp
    have h := mem_lexIdx.mp hp
    exact ewStep_char3 _ a b r h.1 h.2.1 h.2.2
  unfold addSt
  rw [St2.foldl_char _ _ a b _ hstep (zeroT T D R C)]
  congr 1
  funext i j k
  have h := foldWrites_apply3 (fun p => a.readD p + b.readD p) (zeroT T D R C) i j k
  rwa [readD_fin3, readD_fin3] at h

theorem subSt_eq3 [Zero T] [Sub T] (a b : Tensor3D T D R C) :
    subSt a b = ⟨a, b, fun i j k => a i j k - b i j k, none⟩ := by
  have hstep : ∀ (r : Tensor3D T D R C) p, p ∈ lexIdx D R C →
      ewStep (· - ·) ⟨a, b, r, none⟩ p
        = ⟨a, b, r.writeAt p (a.readD p - b.readD p), none⟩ := by
    intro r p hp
    have h := mem_lexIdx.mp hp
    exact ewStep_char3 _ a b r h.1 h.2.1 h.2.2
  unfold subSt
  rw [St2.foldl_char _ _ a b _ hstep (zeroT T D R C)]
  congr 1
  funext i j k
  have h := foldWrites_apply3 (fun p => a.readD p - b.readD p) (zeroT T D R C) i j k
  rwa [readD_fin3, readD_fin3] at h

theorem scStep_char3 [Zero T] {S : Type} (f : T → T) (a : Tensor3D T D R C) (s : S)
    (r : Tensor3D T D R C) {x y z : Nat} (h1 : x < D) (h2 : y < R) (h3 : z < C) :
    scStep f ⟨a, s, r, none⟩ (x, y, z)
      = ⟨a, s, r.writeAt (x, y, z) (f (a.readD (x, y, z))), none⟩ := by
  simp only [scStep, element_eq_readD3 a h1 h2 h3, setElement_lt3 r _ h1 h2 h3]

theorem scFold_eq3 [Zero T] {S : Type} (f : T → T) (a : Tensor3D T D R C) (s : S) :
    (lexIdx D R C).foldl (scStep f) ⟨a, s, zeroT T D R C, none⟩
      = ⟨a, s, fun i j k => f (a i j k), none⟩ := by
  have hstep : ∀ (r : Tensor3D T D R C) p, p ∈ lexIdx D R C →
      scStep f ⟨a, s, r, none⟩ p = ⟨a, s, r.writeAt p (f (a.readD p)), none⟩ := by
    intro r p hp
    have h := mem_lexIdx.mp hp
    exact scStep_char3 f a s r h.1 h.2.1 h.2.2
  rw [St2.foldl_char _ _ a s _ hstep (zeroT T D R C)]
  congr 1
  funext i j k
  have h := foldWrites_apply3 (fun p => f (a.readD p)) (zeroT T D R C) i j k
  rwa [readD_fin3] at h

theorem mulScalarSt_eq [Zero T] [Mul T] (a : Tensor3D T D R C) (s : T) :
    a.mulScalarSt s = ⟨a, s, fun i j k => a i j k * s, none⟩ := by
  unfold mulScalarSt
  exact scFold_eq3 _ a s

theorem divIntSt_ne3 (a : Tensor3D Int D R C) (s : Int) (hs : s ≠ 0) :
    divIntSt a s = ⟨a, s, fun i j k => (a i j k).tdiv s, none⟩ := by
  rw [divIntSt, if_neg hs]
  exact scFold_eq3 _ a s

theorem divIntSt_zero3 (a : Tensor3D Int D R C) :
    divIntSt a 0 = ⟨a, 0, zeroT Int D R C, some ErrKind.divZero⟩ := by
  rw [divIntSt, if_pos rfl]

theorem divFloatSt_ge3 (eps : ℚ) (a : Tensor3D ℚ D R C) (s : ℚ) (hs : ¬|s| < eps) :
    divFloatSt eps a s = ⟨a, s, fun i j k => a i j k / s, none⟩ := by
  rw [divFloatSt, if_neg hs]
  exact scFold_eq3 _ a s

theorem divFloatSt_lt3 (eps : ℚ) (a : Tensor3D ℚ D R C) (s : ℚ) (hs : |s| < eps) :
    divFloatSt eps a s = ⟨a, s, zeroT ℚ D R C, some ErrKind.divZero⟩ := by
  rw [divFloatSt, if_pos hs]

/-- The k-th value handed to populate lands in the k-th cell of the
(depth, row, col) lexicographic enumeration: cell (d, r, c) receives
argument number d * (Rows*Cols) + r * Cols + c. -/
theorem populate_eq3 [Zero T] (m : Tensor3D T D R C) (vals : List T)
    (h : vals.length = D * (R * C)) :
    m.populate vals
      = some (fun i j k => vals.getD (i.val * (R * C) + j.val * C + k.val) 0) := by
  rw [populate, if_pos h]
  congr 1
  funext i j k
  have hC : 0 < C := Nat.lt_of_le_of_lt (Nat.zero_le _) k.isLt
  have hin : j.val * C + k.val < R * C := by
    calc j.val * C + k.val < j.val * C + C := by omega
    _ = (j.val + 1) * C := by ring
    _ ≤ R * C := Nat.mul_le_mul_right _ j.isLt
  have hRC : 0 < R * C := Nat.lt_of_le_of_lt (Nat.zero_le _) hin
  have hk0 : i.val * (R * C) + j.val * C + k.val < D * (R * C) := by
    calc i.val * (R * C) + j.val * C + k.val
        < i.val * (R * C) + R * C := by omega
    _ = (i.val + 1) * (R * C) := by ring
    _ ≤ D * (R * C) := Nat.mul_le_mul_right _ i.isLt
  have hlen : ((lexIdx D R C).zip vals).length = D * (R * C) := by
    rw [List.length_zip, lexIdx_length, h, Nat.min_self]
  have hdiv : (i.val * (R * C) + j.val * C + k.val) / (R * C) = i.val := by
    have he : i.val * (R * C) + j.val * C + k.val
        = (j.val * C + k.val) + (R * C) * i.val := by ring
    rw [he, Nat.add_mul_div_left _ _ hRC, Nat.div_eq_of_lt hin, Nat.zero_add]
  have hmod : (i.val * (R * C) + j.val * C + k.val) % (R * C) = j.val * C + k.val := by
    have he : i.val * (R * C) + j.val * C + k.val
        = (R * C) * i.val + (j.val * C + k.val) := by ring
    rw [he, Nat.mul_add_mod, Nat.mod_eq_of_lt hin]
  have hdiv2 : (j.val * C + k.val) / C = j.val := by
    rw [Nat.add_comm, Nat.mul_comm, Nat.add_mul_div_left _ _ hC,
      Nat.div_eq_of_lt k.isLt, Nat.zero_add]
  have hmod2 : (j.val * C + k.val) % C = k.val := by
    rw [Nat.mul_comm, Nat.mul_add_mod, Nat.mod_eq_of_lt k.isLt]
  have hk0len : i.val * (R * C) + j.val * C + k.val < ((lexIdx D R C).zip vals).length := by
    rw [hlen]; exact hk0
  have hvlen : i.val * (R * C) + j.val * C + k.val < vals.length := by rw [h]; exact hk0
  have hrlen : i.val * (R * C) + j.val * C + k.val < (lexIdx D R C).length := by
    rw [lexIdx_length]; exact hk0
  have hmem : ((i.val, j.val, k.val), vals.getD (i.val * (R * C) + j.val * C + k.val) 0)
      ∈ (lexIdx D R C).zip vals := by
    rw [List.mem_iff_getElem]
    refine ⟨i.val * (R * C) + j.val * C + k.val, hk0len, ?_⟩
    rw [List.getElem_zip, lexIdx_getElem D R C _ hrlen, hdiv, hmod, hdiv2, hmod2,
      List.getD_eq_getElem vals 0 hvlen]
  have huniq : ∀ w, ((i.val, j.val, k.val), w) ∈ (lexIdx D R C).zip vals →
      w = vals.getD (i.val * (R * C) + j.val * C + k.val) 0 := by
    intro w hw
    obtain ⟨t, ht, helem⟩ := List.mem_iff_getElem.mp hw
    rw [List.getElem_zip] at helem
    have ht2 : t < (lexIdx D R C).length := by
      rw [lexIdx_length]
      rw [hlen] at ht
      exact ht
    rw [lexIdx_getElem D R C t ht2] at helem
    simp only [Prod.mk.injEq] at helem
    obtain ⟨⟨hd, hjk, hkk⟩, hv⟩ := helem
    have hmid : t % (R * C) = j.val * C + k.val := by
      calc t % (R * C) = C * (t % (R * C) / C) + t % (R * C) % C :=
        (Nat.div_add_mod _ C).symm
      _ = j.val * C + k.val := by rw [hjk, hkk, Nat.mul_comm]
    have ht0 : t = i.val * (R * C) + j.val * C + k.val := by
      calc t = R * C * (t / (R * C)) + t % (R * C) := (Nat.div_add_mod t (R * C)).symm
      _ = i.val * (R * C) + j.val * C + k.val := by
        rw [hd, hmid, Nat.mul_comm, Nat.add_assoc]
    subst ht0
    rw [List.getD_eq_getElem vals 0 hvlen]
    exact hv.symm
  have hres := foldl_write_unique (ι := Nat × Nat × Nat) writeAt readD
    (fun p => p.1 < D ∧ p.2.1 < R ∧ p.2.2 < C)
    (fun m p v q hq => readD_writeAt3 m p v q hq)
    ((lexIdx D R C).zip vals) m (i.val, j.val, k.val)
    (vals.getD (i.val * (R * C) + j.val * C + k.val) 0) ⟨i.isLt, j.isLt, k.isLt⟩ hmem huniq
  exact (readD_fin3 _ i j k).symm.trans hres

end Tensor3D

/-- The ascending accumulation loop `sum = c; for k in 0..n-1: sum += f k`
computes c plus the finite sum. -/
theorem foldl_add_sum {T : Type} [AddCommMonoid T] (f : Nat → T) (n : Nat) (c : T) :
    (List.range n).foldl (fun s k => s + f k) c = c + ∑ x ∈ Finset.range n, f x := by
  induction n with
  | zero => simp
  | succ n ih =>
    rw [List.range_succ, List.foldl_append, List.foldl_cons, List.foldl_nil, ih,
      Finset.sum_range_succ, add_assoc]

/-- The C++ float-to-integer conversion is exactly truncation toward zero. -/
theorem staticCastRatInt_eq_trunc (q : ℚ) : staticCastRatInt q = truncTowardZero q := by
  rw [staticCastRatInt, truncTowardZero]
  by_cases h : 0 ≤ q
  · rw [if_pos h, Rat.floor_def]
    exact Int.tdiv_eq_ediv (Rat.num_nonneg.mpr h) (Int.natCast_nonneg _)
  · rw [if_neg h]
    have hq : q.num < 0 := by
      by_contra hn
      push_neg at hn
      exact h (Rat.num_nonneg.mp hn)
    have hc : (⌈q⌉ : Int) = -⌊-q⌋ := by
      conv_lhs => rw [← neg_neg q]
      rw [Int.ceil_neg]
    rw [hc, Rat.floor_def, Rat.num_neg_eq_neg_num, Rat.den_neg_eq_den]
    have ht : q.num.tdiv q.den = -((-q.num).tdiv q.den) := by
      rw [Int.neg_tdiv, neg_neg]
    rw [ht, Int.tdiv_eq_ediv (by omega) (Int.natCast_nonneg _)]

/-- C1: for every Matrix A of shape Rows x Cols and Matrix B of shape
OtherRows x OtherCols with Cols == OtherRows (enforced by the shape types of
the embedding), A * B has shape Rows x OtherCols and its (i, j) entry equals
the dot-product sum over k of A(i,k)*B(k,j), accumulated in T's arithmetic
starting from T{} with k ascending from 0 to Cols-1 (the accumulation order
is the definition of mulSt), for all valid i and j. -/
theorem C1_matrix_multiply {T : Type} [AddCommMonoid T] [Mul T] {R K C : Nat}
    (a : Matrix T R K) (b : Matrix T K C) :
    (Matrix.mulSt a b).result.numRows = R ∧
    (Matrix.mulSt a b).result.numCols = C ∧
    ∀ (i : Fin R) (j : Fin C),
      (Matrix.mulSt a b).result i j = ∑ k : Fin K, a i k * b k j := by
  refine ⟨rfl, rfl, fun i j => ?_⟩
  calc (Matrix.mulSt a b).result i j
      = (List.range K).foldl (fun s k => s + a.readD (i.val, k) * b.readD (k, j.val)) 0 := by
        rw [Matrix.mulSt_eq]
    _ = 0 + ∑ x ∈ Finset.range K, a.readD (i.val, x) * b.readD (x, j.val) :=
        foldl_add_sum _ K 0
    _ = ∑ x ∈ Finset.range K, a.readD (i.val, x) * b.readD (x, j.val) := zero_add _
    _ = ∑ k : Fin K, a.readD (i.val, (k : Nat)) * b.readD ((k : Nat), j.val) :=
        (Fin.sum_univ_eq_sum_range _ K).symm
    _ = ∑ k : Fin K, a i k * b k j := by
        apply Finset.sum_congr rfl
        intro k _
        rw [Matrix.readD_fin, Matrix.readD_fin]

/-- C2: for Matrix and Tensor3D, divideByScalar fails with DivisionByZero iff
the divisor is 0 (integer T) or |scalar| < machine epsilon (floating T,
modelled by ℚ with epsilon parameter eps); the check runs once before any
element is divided, and a non-failing call produces the element-wise quotient
at every position. -/
theorem C2_divide_by_scalar :
    (∀ (R C : Nat) (m : Matrix Int R C) (s : Int),
      ((Matrix.divIntSt m s).err = some ErrKind.divZero ↔ s = 0) ∧
      (s ≠ 0 → ∀ (i : Fin R) (j : Fin C),
        (Matrix.divIntSt m s).result i j = (m i j).tdiv s)) ∧
    (∀ (R C : Nat) (eps : ℚ) (m : Matrix ℚ R C) (s : ℚ),
      ((Matrix.divFloatSt eps m s).err = some ErrKind.divZero ↔ |s| < eps) ∧
      (¬|s| < eps → ∀ (i : Fin R) (j : Fin C),
        (Matrix.divFloatSt eps m s).result i j = m i j / s)) ∧
    (∀ (D R C : Nat) (t : Tensor3D Int D R C) (s : Int),
      ((Tensor3D.divIntSt t s).err = some ErrKind.divZero ↔ s = 0) ∧
      (s ≠ 0 → ∀ (d : Fin D) (i : Fin R) (j : Fin C),
        (Tensor3D.divIntSt t s).result d i j = (t d i j).tdiv s)) ∧
    (∀ (D R C : Nat) (eps : ℚ) (t : Tensor3D ℚ D R C) (s : ℚ),
      ((Tensor3D.divFloatSt eps t s).err = some ErrKind.divZero ↔ |s| < eps) ∧
      (¬|s| < eps → ∀ (d : Fin D) (i : Fin R) (j : Fin C),
        (Tensor3D.divFloatSt eps t s).result d i j = t d i j / s)) := by
  refine ⟨?_, ?_, ?_, ?_⟩
  · intro R C m s
    refine ⟨⟨fun he => ?_, fun hs => ?_⟩, fun hs i j => ?_⟩
    · by_contra hs
      rw [Matrix.divIntSt_ne m s hs] at he
      exact Option.noConfusion he
    · subst hs; rw [Matrix.divIntSt_zero]
    · rw [Matrix.divIntSt_ne m s hs]
  · intro R C eps m s
    refine ⟨⟨fun he => ?_, fun hs => ?_⟩, fun hs i j => ?_⟩
    · by_contra hs
      rw [Matrix.divFloatSt_ge eps m s hs] at he
      exact Option.noConfusion he
    · rw [Matrix.divFloatSt_lt eps m s hs]
    · rw [Matrix.divFloatSt_ge eps m s hs]
  · intro D R C t s
    refine ⟨⟨fun he => ?_, fun hs => ?_⟩, fun hs d i j => ?_⟩
    · by_contra hs
      rw [Tensor3D.divIntSt_ne3 t s hs] at he
      exact Option.noConfusion he
    · subst hs; rw [Tensor3D.divIntSt_zero3]
    · rw [Tensor3D.divIntSt_ne3 t s hs]
  · intro D R C eps t s
    refine ⟨⟨fun he => ?_, fun hs => ?_⟩, fun hs d i j => ?_⟩
    · by_contra hs
      rw [Tensor3D.divFloatSt_ge3 eps t s hs] at he
      exact Option.noConfusion he
    · rw [Tensor3D.divFloatSt_lt3 eps t s hs]
    · rw [Tensor3D.divFloatSt_ge3 eps t s hs]

theorem C2_divide_by_scalar_witness :
    (2 : Int) ≠ 0 ∧
    (Matrix.divIntSt ((fun _ _ => (5 : Int)) : Matrix Int 1 1) 2).result 0 0 = 2 ∧
    (Matrix.divIntSt ((fun _ _ => (5 : Int)) : Matrix Int 1 1) 0).err
      = some ErrKind.divZero := by
  refine ⟨by decide, ?_, ?_⟩
  · have h := (C2_divide_by_scalar.1 1 1 ((fun _ _ => (5 : Int)) : Matrix Int 1 1) 2).2
      (by decide) 0 0
    exact h.trans (by decide)
  · exact (C2_divide_by_scalar.1 1 1 ((fun _ _ => (5 : Int)) : Matrix Int 1 1) 0).1.mpr rfl

/-- C3: the element accessor with row >= Rows or col >= Cols fails with
OutOfRange, in particular at (Rows, 0) and (0, Cols); likewise for Tensor3D
when any of depth, row, col reaches its bound; the check happens on every
access, and an in-bounds access returns the stored value. -/
theorem C3_out_of_range :
    (∀ (T : Type) (R C : Nat) (m : Matrix T R C) (row col : Nat),
      (m.element row col = none ↔ R ≤ row ∨ C ≤ col) ∧
      (∀ (hr : row < R) (hc : col < C),
        m.element row col = some (m ⟨row, hr⟩ ⟨col, hc⟩))) ∧
    (∀ (T : Type) (R C : Nat) (m : Matrix T R C),
      m.element R 0 = none ∧ m.element 0 C = none) ∧
    (∀ (T : Type) (D R C : Nat) (t : Tensor3D T D R C) (dep row col : Nat),
      (t.element dep row col = none ↔ D ≤ dep ∨ R ≤ row ∨ C ≤ col) ∧
      (∀ (hd : dep < D) (hr : row < R) (hc : col < C),
        t.element dep row col = some (t ⟨dep, hd⟩ ⟨row, hr⟩ ⟨col, hc⟩))) := by
  refine ⟨?_, ?_, ?_⟩
  · intro T R C m row col
    refine ⟨⟨fun hnone => ?_, fun h => ?_⟩, fun hr hc => Matrix.element_lt m hr hc⟩
    · by_contra hcon
      push_neg at hcon
      rw [Matrix.element_lt m hcon.1 hcon.2] at hnone
      exact Option.noConfusion hnone
    · rw [Matrix.element, dif_pos h]
  · intro T R C m
    exact ⟨by rw [Matrix.element, dif_pos (Or.inl le_rfl)],
      by rw [Matrix.element, dif_pos (Or.inr le_rfl)]⟩
  · intro T D R C t dep row col
    refine ⟨⟨fun hnone => ?_, fun h => ?_⟩,
      fun hd hr hc => Tensor3D.element_lt3 t hd hr hc⟩
    · by_contra hcon
      push_neg at hcon
      rw [Tensor3D.element_lt3 t hcon.1 hcon.2.1 hcon.2.2] at hnone
      exact Option.noConfusion hnone
    · rw [Tensor3D.element, dif_pos h]

theorem C3_out_of_range_witness :
    Matrix.element ((fun _ _ => (7 : Int)) : Matrix Int 2 3) 1 2 = some 7 ∧
    Matrix.element ((fun _ _ => (7 : Int)) : Matrix Int 2 3) 2 0 = none ∧
    Matrix.element ((fun _ _ => (7 : Int)) : Matrix Int 2 3) 0 3 = none ∧
    Tensor3D.element ((fun _ _ _ => (9 : Int)) : Tensor3D Int 1 2 2) 1 0 0 = none := by
  refine ⟨?_, ?_, ?_, ?_⟩
  · exact (C3_out_of_range.1 Int 2 3 ((fun _ _ => (7 : Int)) : Matrix Int 2 3) 1 2).2
      (by decide) (by decide)
  · exact (C3_out_of_range.2.1 Int 2 3 ((fun _ _ => (7 : Int)) : Matrix Int 2 3)).1
  · exact (C3_out_of_range.2.1 Int 2 3 ((fun _ _ => (7 : Int)) : Matrix Int 2 3)).2
  · exact (C3_out_of_range.2.2 Int 1 2 2 ((fun _ _ _ => (9 : Int)) : Tensor3D Int 1 2 2)
      1 0 0).1.mpr (Or.inl le_rfl)

/-- C4: populate assigns its argument sequence in slowest-axis-first order:
for Matrix row-major (cell (i, j) receives argument number i*Cols + j, so
Matrix<int,2,2>.populate(1,2,3,4) puts 1,2,3,4 at (0,0),(0,1),(1,0),(1,1));
for Tensor3D depth varies slowest, then row, then col (cell (d, r, c)
receives argument number d*Rows*Cols + r*Cols + c, its position in the
lexicographic enumeration). -/
theorem C4_populate_order :
    (∀ (T : Type) [Zero T] (R C : Nat) (m : Matrix T R C) (vals : List T),
      vals.length = R * C →
      m.populate vals = some (fun i j => vals.getD (i.val * C + j.val) 0)) ∧
    (∀ (T : Type) [Zero T] (D R C : Nat) (t : Tensor3D T D R C) (vals : List T),
      vals.length = D * (R * C) →
      t.populate vals
        = some (fun d r c => vals.getD (d.val * (R * C) + r.val * C + c.val) 0)) := by
  constructor
  · intro T _ R C m vals h
    exact Matrix.populate_eq m vals h
  · intro T _ D R C t vals h
    exact Tensor3D.populate_eq3 t vals h

theorem C4_populate_order_witness :
    Matrix.populate (Matrix.zeroM Int 2 2) [1, 2, 3, 4]
      = some (fun i j => List.getD [1, 2, 3, 4] (i.val * 2 + j.val) 0) ∧
    List.getD [(1 : Int), 2, 3, 4] (0 * 2 + 0) 0 = 1 ∧
    List.getD [(1 : Int), 2, 3, 4] (0 * 2 + 1) 0 = 2 ∧
    List.getD [(1 : Int), 2, 3, 4] (1 * 2 + 0) 0 = 3 ∧
    List.getD [(1 : Int), 2, 3, 4] (1 * 2 + 1) 0 = 4 ∧
    Tensor3D.populate (Tensor3D.zeroT Int 1 1 1) [5]
      = some (fun d r c => List.getD [5] (d.val * (1 * 1) + r.val * 1 + c.val) 0) :=
  ⟨C4_populate_order.1 Int 2 2 (Matrix.zeroM Int 2 2) [1, 2, 3, 4] (by decide),
    by decide, by decide, by decide, by decide,
    C4_populate_order.2 Int 1 1 1 (Tensor3D.zeroT Int 1 1 1) [5] (by decide)⟩

/-- C5 (counterexample): a stream whose precision is 5 before Matrix
formatting does not get its formatting state back; operator<< leaves the
default-constructed state (precision 6) behind, so the state is not exactly
what it was before the call. -/
theorem C5_format_restore_counterexample :
    matrixFmtEffect ⟨⟨true, 10, 0⟩, 5, 0⟩ ≠ ⟨⟨true, 10, 0⟩, 5, 0⟩ := by
  decide

/-- C5 (amended): Matrix operator<< resets the stream to the
default-constructed formatting state (copyfmt of std::ios(nullptr)) rather
than restoring the pre-call state, and Tensor3D operator<< restores the
pre-call flags but leaves precision 2 (and width 0) behind; the pre-call
formatting state is not in general restored by either. -/
theorem C5_format_restore_amended (s : FmtState) :
    matrixFmtEffect s = defaultFmtState ∧
    tensorFmtEffect s = ⟨s.flags, 2, 0⟩ :=
  ⟨rfl, rfl⟩

/-- C6: the commuted form k * t returns exactly the member scalar-multiply
result t * k, element-wise identical, for all scalars k and tensors t. -/
theorem C6_scalar_mul_commuted {T : Type} [Zero T] [Mul T] {D R C : Nat}
    (s : T) (t : Tensor3D T D R C) :
    Tensor3D.smulLeft s t = (t.mulScalarSt s).result ∧
    ∀ (d : Fin D) (r : Fin R) (c : Fin C),
      Tensor3D.smulLeft s t d r c = t d r c * s := by
  refine ⟨rfl, fun d r c => ?_⟩
  show (t.mulScalarSt s).result d r c = t d r c * s
  rw [Tensor3D.mulScalarSt_eq]

/-- C7: no operator (+, -, *, /) on Matrix or Tensor3D mutates either
operand: after any call, including a divide whose divisor check throws, the
receiver and the argument held in the operation state are unchanged. -/
theorem C7_operands_never_mutated :
    (∀ (T : Type) [Zero T] [Add T] (R C : Nat) (a b : Matrix T R C),
      (Matrix.addSt a b).self = a ∧ (Matrix.addSt a b).other = b) ∧
    (∀ (T : Type) [Zero T] [Sub T] (R C : Nat) (a b : Matrix T R C),
      (Matrix.subSt a b).self = a ∧ (Matrix.subSt a b).other = b) ∧
    (∀ (T : Type) [Zero T] [Add T] [Mul T] (R K C : Nat)
      (a : Matrix T R K) (b : Matrix T K C),
      (Matrix.mulSt a b).self = a ∧ (Matrix.mulSt a b).other = b) ∧
    (∀ (R C : Nat) (a : Matrix Int R C) (s : Int),
      (Matrix.divIntSt a s).self = a ∧ (Matrix.divIntSt a s).other = s) ∧
    (∀ (R C : Nat) (eps : ℚ) (a : Matrix ℚ R C) (s : ℚ),
      (Matrix.divFloatSt eps a s).self = a ∧ (Matrix.divFloatSt eps a s).other = s) ∧
    (∀ (T : Type) [Zero T] [Add T] (D R C : Nat) (a b : Tensor3D T D R C),
      (Tensor3D.addSt a b).self = a ∧ (Tensor3D.addSt a b).other = b) ∧
    (∀ (T : Type) [Zero T] [Sub T] (D R C : Nat) (a b : Tensor3D T D R C),
      (Tensor3D.subSt a b).self = a ∧ (Tensor3D.subSt a b).other = b) ∧
    (∀ (T : Type) [Zero T] [Mul T] (D R C : Nat) (a : Tensor3D T D R C) (s : T),
      (a.mulScalarSt s).self = a ∧ (a.mulScalarSt s).other = s) ∧
    (∀ (D R C : Nat) (a : Tensor3D Int D R C) (s : Int),
      (Tensor3D.divIntSt a s).self = a ∧ (Tensor3D.divIntSt a s).other = s) ∧
    (∀ (D R C : Nat) (eps : ℚ) (a : Tensor3D ℚ D R C) (s : ℚ),
      (Tensor3D.divFloatSt eps a s).self = a ∧ (Tensor3D.divFloatSt eps a s).other = s) := by
  refine ⟨?_, ?_, ?_, ?_, ?_, ?_, ?_, ?_, ?_, ?_⟩
  · intro T _ _ R C a b
    rw [Matrix.addSt_eq]
    exact ⟨rfl, rfl⟩
  · intro T _ _ R C a b
    rw [Matrix.subSt_eq]
    exact ⟨rfl, rfl⟩
  · intro T _ _ _ R K C a b
    rw [Matrix.mulSt_eq]
    exact ⟨rfl, rfl⟩
  · intro R C a s
    by_cases hs : s = 0
    · subst hs; rw [Matrix.divIntSt_zero]; exact ⟨rfl, rfl⟩
    · rw [Matrix.divIntSt_ne a s hs]; exact ⟨rfl, rfl⟩
  · intro R C eps a s
    by_cases hs : |s| < eps
    · rw [Matrix.divFloatSt_lt eps a s hs]; exact ⟨rfl, rfl⟩
    · rw [Matrix.divFloatSt_ge eps a s hs]; exact ⟨rfl, rfl⟩
  · intro T _ _ D R C a b
    rw [Tensor3D.addSt_eq3]
    exact ⟨rfl, rfl⟩
  · intro T _ _ D R C a b
    rw [Tensor3D.subSt_eq3]
    exact ⟨rfl, rfl⟩
  · intro T _ _ D R C a s
    rw [Tensor3D.mulScalarSt_eq]
    exact ⟨rfl, rfl⟩
  · intro D R C a s
    by_cases hs : s = 0
    · subst hs; rw [Tensor3D.divIntSt_zero3]; exact ⟨rfl, rfl⟩
    · rw [Tensor3D.divIntSt_ne3 a s hs]; exact ⟨rfl, rfl⟩
  · intro D R C eps a s
    by_cases hs : |s| < eps
    · rw [Tensor3D.divFloatSt_lt3 eps a s hs]; exact ⟨rfl, rfl⟩
    · rw [Tensor3D.divFloatSt_ge3 eps a s hs]; exact ⟨rfl, rfl⟩

/-- C8: a default-constructed Matrix (or Tensor3D) has the zero value of T in
every cell, and adding a default-constructed container of the same shape to
any container m yields m element-wise, for all m. -/
theorem C8_zero_ctor_additive_identity :
    (∀ (T : Type) [AddZeroClass T] (R C : Nat) (g : Matrix T R C),
      (∀ (i : Fin R) (j : Fin C), g.ctorFrom i j = 0) ∧
      (∀ (m : Matrix T R C), (Matrix.addSt m g.ctorFrom).result = m)) ∧
    (∀ (T : Type) [AddZeroClass T] (D R C : Nat) (g : Tensor3D T D R C),
      (∀ (d : Fin D) (r : Fin R) (c : Fin C), g.ctorFrom d r c = 0) ∧
      (∀ (t : Tensor3D T D R C), (Tensor3D.addSt t g.ctorFrom).result = t)) := by
  constructor
  · intro T _ R C g
    refine ⟨fun i j => Matrix.ctorFrom_apply g i j, fun m => ?_⟩
    rw [Matrix.ctorFrom_eq_zeroM, Matrix.addSt_eq]
    funext i j
    exact add_zero (m i j)
  · intro T _ D R C g
    refine ⟨fun d r c => Tensor3D.ctorFrom_apply3 g d r c, fun t => ?_⟩
    rw [Tensor3D.ctorFrom_eq_zeroT, Tensor3D.addSt_eq3]
    funext d r c
    exact add_zero (t d r c)

/-- C9: every internal element access inside the +, -, *, / bodies stays
strictly below the shape bounds, so the OutOfRange branch of the accessor is
unreachable from these operations: the element-wise and multiply operators
finish with no exception at all, and the divide operators can only raise
DivisionByZero, never OutOfRange. -/
theorem C9_oor_unreachable :
    (∀ (T : Type) [Zero T] [Add T] (R C : Nat) (a b : Matrix T R C),
      (Matrix.addSt a b).err = none) ∧
    (∀ (T : Type) [Zero T] [Sub T] (R C : Nat) (a b : Matrix T R C),
      (Matrix.subSt a b).err = none) ∧
    (∀ (T : Type) [Zero T] [Add T] [Mul T] (R K C : Nat)
      (a : Matrix T R K) (b : Matrix T K C),
      (Matrix.mulSt a b).err = none) ∧
    (∀ (R C : Nat) (a : Matrix Int R C) (s : Int),
      (Matrix.divIntSt a s).err ≠ some ErrKind.oor) ∧
    (∀ (R C : Nat) (eps : ℚ) (a : Matrix ℚ R C) (s : ℚ),
      (Matrix.divFloatSt eps a s).err ≠ some ErrKind.oor) ∧
    (∀ (T : Type) [Zero T] [Add T] (D R C : Nat) (a b : Tensor3D T D R C),
      (Tensor3D.addSt a b).err = none) ∧
    (∀ (T : Type) [Zero T] [Sub T] (D R C : Nat) (a b : Tensor3D T D R C),
      (Tensor3D.subSt a b).err = none) ∧
    (∀ (T : Type) [Zero T] [Mul T] (D R C : Nat) (a : Tensor3D T D R C) (s : T),
      (a.mulScalarSt s).err = none) ∧
    (∀ (D R C : Nat) (a : Tensor3D Int D R C) (s : Int),
      (Tensor3D.divIntSt a s).err ≠ some ErrKind.oor) ∧
    (∀ (D R C : Nat) (eps : ℚ) (a : Tensor3D ℚ D R C) (s : ℚ),
      (Tensor3D.divFloatSt eps a s).err ≠ some ErrKind.oor) := by
  refine ⟨?_, ?_, ?_, ?_, ?_, ?_, ?_, ?_, ?_, ?_⟩
  · intro T _ _ R C a b
    rw [Matrix.addSt_eq]
  · intro T _ _ R C a b
    rw [Matrix.subSt_eq]
  · intro T _ _ _ R K C a b
    rw [Matrix.mulSt_eq]
  · intro R C a s
    by_cases hs : s = 0
    · subst hs; rw [Matrix.divIntSt_zero]; simp
    · rw [Matrix.divIntSt_ne a s hs]; simp
  · intro R C eps a s
    by_cases hs : |s| < eps
    · rw [Matrix.divFloatSt_lt eps a s hs]; simp
    · rw [Matrix.divFloatSt_ge eps a s hs]; simp
  · intro T _ _ D R C a b
    rw [Tensor3D.addSt_eq3]
  · intro T _ _ D R C a b
    rw [Tensor3D.subSt_eq3]
  · intro T _ _ D R C a s
    rw [Tensor3D.mulScalarSt_eq]
  · intro D R C a s
    by_cases hs : s = 0
    · subst hs; rw [Tensor3D.divIntSt_zero3]; simp
    · rw [Tensor3D.divIntSt_ne3 a s hs]; simp
  · intro D R C eps a s
    by_cases hs : |s| < eps
    · rw [Tensor3D.divFloatSt_lt3 eps a s hs]; simp
    · rw [Tensor3D.divFloatSt_ge3 eps a s hs]; simp

/-- C10: populate converts each argument to T via static_cast before
assignment; populating an integer-element container with floating-point
arguments stores the truncated-toward-zero integer values. -/
theorem C10_populate_static_cast :
    (∀ (R C : Nat) (m : Matrix Int R C) (qs : List ℚ), qs.length = R * C →
      Matrix.populateCast m staticCastRatInt qs
        = some (fun i j => truncTowardZero (qs.getD (i.val * C + j.val) 0))) ∧
    (∀ (D R C : Nat) (t : Tensor3D Int D R C) (qs : List ℚ),
      qs.length = D * (R * C) →
      Tensor3D.populateCast t staticCastRatInt qs
        = some (fun d r c =>
            truncTowardZero (qs.getD (d.val * (R * C) + r.val * C + c.val) 0))) := by
  constructor
  · intro R C m qs h
    rw [Matrix.populateCast, Matrix.populate_eq _ _ (by rw [List.length_map]; exact h)]
    congr 1
    funext i j
    have hlt : i.val * C + j.val < qs.length := by
      rw [h]
      calc i.val * C + j.val < i.val * C + C := by omega
      _ = (i.val + 1) * C := by ring
      _ ≤ R * C := Nat.mul_le_mul_right _ i.isLt
    have hlt2 : i.val * C + j.val < (qs.map staticCastRatInt).length := by
      rw [List.length_map]; exact hlt
    rw [List.getD_eq_getElem _ _ hlt2, List.getElem_map, List.getD_eq_getElem qs 0 hlt,
      staticCastRatInt_eq_trunc]
  · intro D R C t qs h
    rw [Tensor3D.populateCast, Tensor3D.populate_eq3 _ _ (by rw [List.length_map]; exact h)]
    congr 1
    funext d r c
    have hin : r.val * C + c.val < R * C := by
      calc r.val * C + c.val < r.val * C + C := by omega
      _ = (r.val + 1) * C := by ring
      _ ≤ R * C := Nat.mul_le_mul_right _ r.isLt
    have hlt : d.val * (R * C) + r.val * C + c.val < qs.length := by
      rw [h]
      calc d.val * (R * C) + r.val * C + c.val < d.val * (R * C) + R * C := by omega
      _ = (d.val + 1) * (R * C) := by ring
      _ ≤ D * (R * C) := Nat.mul_le_mul_right _ d.isLt
    have hlt2 : d.val * (R * C) + r.val * C + c.val < (qs.map staticCastRatInt).length := by
      rw [List.length_map]; exact hlt
    rw [List.getD_eq_getElem _ _ hlt2, List.getElem_map, List.getD_eq_getElem qs 0 hlt,
      staticCastRatInt_eq_trunc]

theorem C10_populate_static_cast_witness :
    Matrix.populateCast (Matrix.zeroM Int 2 2) staticCastRatInt
        [3 / 2, -3 / 2, 9 / 4, -1 / 10]
      = some (fun i j =>
          truncTowardZero (List.getD [3 / 2, -3 / 2, 9 / 4, -1 / 10] (i.val * 2 + j.val) 0)) ∧
    truncTowardZero (3 / 2 : ℚ) = 1 ∧ truncTowardZero (-3 / 2 : ℚ) = -1 ∧
    truncTowardZero (9 / 4 : ℚ) = 2 ∧ truncTowardZero (-1 / 10 : ℚ) = 0 := by
  refine ⟨C10_populate_static_cast.1 2 2 (Matrix.zeroM Int 2 2)
    [3 / 2, -3 / 2, 9 / 4, -1 / 10] (by decide), ?_, ?_, ?_, ?_⟩
  · rw [truncTowardZero, if_pos (by norm_num), Int.floor_eq_iff]
    constructor <;> norm_num
  · rw [truncTowardZero, if_neg (by norm_num), Int.ceil_eq_iff]
    constructor <;> norm_num
  · rw [truncTowardZero, if_pos (by norm_num), Int.floor_eq_iff]
    constructor <;> norm_num
  · rw [truncTowardZero, if_neg (by norm_num), Int.ceil_eq_iff]
    constructor <;> norm_num

end Eigix
